import Mathlib

/-!
Verification of the streaming SSE decoder of the subconscious-node SDK.

The embedding models, from the source:
 - `src/internal/sse.ts`: `parseSSELine` and `parseSSEStream` (rich protocol
   line/record decoder);
 - `stream.ts` (delta variant): the line loop of `createStream`, here
   `deltaLineStep` / `createStreamDelta`;
 - `stream.ts` (rich variant): the event fold of `createStream`, here
   `richStep` / `createStreamRich`.

Strings are `List Char`; byte streams are `List Nat`.  `JSON.parse` is a
platform builtin, so it is modelled as an abstract parameter
`jparse : List Char → Option Json` (`none` models a parse error); every
theorem below holds for every such function.  `TextDecoder` with
`stream: true` is modelled by the incremental byte-level decoder
`utf8Decode1` / `utf8DecodeChunk`.
-/

/-- String literal helpers written as explicit character lists. -/
def evKey : List Char := ['e', 'v', 'e', 'n', 't']

def dataKey : List Char := ['d', 'a', 't', 'a']

def idKey : List Char := ['i', 'd']

def retryKey : List Char := ['r', 'e', 't', 'r', 'y']

def eventColon : List Char := ['e', 'v', 'e', 'n', 't', ':']

def dataColon : List Char := ['d', 'a', 't', 'a', ':']

def errorLit : List Char := ['e', 'r', 'r', 'o', 'r']

def doneLit : List Char := ['[', 'D', 'O', 'N', 'E', ']']

def runIdKey : List Char := ['r', 'u', 'n', '_', 'i', 'd']

def detailsKey : List Char := ['d', 'e', 't', 'a', 'i', 'l', 's']

def codeKey : List Char := ['c', 'o', 'd', 'e']

def choicesKey : List Char := ['c', 'h', 'o', 'i', 'c', 'e', 's']

def deltaKey : List Char := ['d', 'e', 'l', 't', 'a']

def contentKey : List Char := ['c', 'o', 'n', 't', 'e', 'n', 't']

def typeKey : List Char := ['t', 'y', 'p', 'e']

def richRunIdKey : List Char := ['r', 'u', 'n', 'I', 'd']

def resultKey : List Char := ['r', 'e', 's', 'u', 'l', 't']

def usageKey : List Char := ['u', 's', 'a', 'g', 'e']

def runCompletedLit : List Char :=
  ['r', 'u', 'n', '.', 'c', 'o', 'm', 'p', 'l', 'e', 't', 'e', 'd']

def runFailedLit : List Char := ['r', 'u', 'n', '.', 'f', 'a', 'i', 'l', 'e', 'd']

def unknownErrorLit : List Char :=
  ['U', 'n', 'k', 'n', 'o', 'w', 'n', ' ', 'e', 'r', 'r', 'o', 'r']

/-- Message of the hard failure thrown by the rich-protocol `createStream`
when the stream ends without a completion event. -/
def noCompletionMsg : List Char :=
  ['S', 't', 'r', 'e', 'a', 'm', ' ', 'e', 'n', 'd', 'e', 'd', ' ',
   'w', 'i', 't', 'h', 'o', 'u', 't', ' ',
   'c', 'o', 'm', 'p', 'l', 'e', 't', 'i', 'o', 'n', ' ',
   'e', 'v', 'e', 'n', 't']

/-- JSON values, the possible results of the platform `JSON.parse`. -/
inductive Json where
  | null : Json
  | bool (b : Bool) : Json
  | num (n : Int) : Json
  | str (s : List Char) : Json
  | arr (xs : List Json) : Json
  | obj (fields : List (List Char × Json)) : Json

/-- Property access `o[k]` on a JSON value: defined for objects, `none`
(undefined) for every other value, matching JS member access on the values
`JSON.parse` can return. -/
def Json.get : Json → List Char → Option Json
  | .obj fs, k => (fs.find? (fun kv => kv.fst == k)).map Prod.snd
  | _, _ => none

/-- JS truthiness of a JSON value (`''`, `0`, `false`, `null` are falsy). -/
def Json.truthy : Json → Bool
  | .null => false
  | .bool b => b
  | .num n => n != 0
  | .str s => !s.isEmpty
  | .arr _ => true
  | .obj _ => true

/-- JS truthiness of a possibly-undefined value. -/
def jsTruthy (o : Option Json) : Bool :=
  match o with
  | none => false
  | some j => j.truthy

/-- JS `a || b`: the left operand when truthy, otherwise the right one. -/
def jsOr (a : Option Json) (b : Json) : Json :=
  match a with
  | some j => if j.truthy then j else b
  | none => b

/-- JS array/string index access `x?.[0]`. -/
def Json.index0 : Json → Option Json
  | .arr xs => xs.head?
  | .str (c :: _) => some (.str [c])
  | _ => none

/-- The optional chain `payload.choices?.[0]?.delta?.content`. -/
def deltaContent (payload : Json) : Option Json :=
  (((payload.get choicesKey).bind Json.index0).bind
    (fun d => d.get deltaKey)).bind (fun d => d.get contentKey)

/-- JS strict equality of `o.type` with a string literal
(`event.type === "run.completed"` and the like). -/
def Json.isTypeTag (e : Json) (t : List Char) : Bool :=
  match e.get typeKey with
  | some (.str s) => s == t
  | _ => false

/-- Whitespace recognized by the modelled `trim` / `parseInt` prefix skip. -/
def isWS (c : Char) : Bool :=
  c == ' ' || c == '\t' || c == '\n' || c == '\r' || c == '\x0b' || c == '\x0c'

/-- JS `String.prototype.trim`. -/
def jsTrim (s : List Char) : List Char :=
  ((s.dropWhile isWS).reverse.dropWhile isWS).reverse

/-- A JS value stored in a record field: `retry:` lines store a
`parseInt` result, which is a number or `NaN`; the other assignments
store strings. -/
inductive JsValue where
  | str (s : List Char) : JsValue
  | num (n : Int) : JsValue
  | nan : JsValue
deriving DecidableEq

/-- JS `parseInt(value, 10)`: skip leading whitespace, optional sign,
then base-10 digits; `NaN` when no digit is found. -/
def parseIntJs (s : List Char) : JsValue :=
  let t := s.dropWhile isWS
  let signed : Bool × List Char :=
    match t with
    | '-' :: r => (true, r)
    | '+' :: r => (false, r)
    | _ => (false, t)
  let ds := signed.2.takeWhile Char.isDigit
  if ds.isEmpty then .nan
  else
    let n : Nat := ds.foldl (fun a c => a * 10 + (c.toNat - 48)) 0
    .num (if signed.1 then -(n : Int) else (n : Int))

/-- The `SSEMessage` accumulator of `sse.ts`: the four recognized fields,
each possibly still unset. -/
structure SSEMessage where
  event : Option (List Char)
  data : Option (List Char)
  id : Option (List Char)
  retry : Option JsValue
deriving DecidableEq

/-- The freshly reset accumulator (`currentMessage = {}`). -/
def emptyMsg : SSEMessage := ⟨none, none, none, none⟩

/-- Result of `parseSSELine`: which single-field partial object it
returned (`pother` is the `{ [line]: '' }` object for an unrecognized
whole-line key; `none` in `parseSSELine` models the `null` returns). -/
inductive SSELineParse where
  | pevent (v : List Char) : SSELineParse
  | pdata (v : List Char) : SSELineParse
  | pid (v : List Char) : SSELineParse
  | pretry (v : JsValue) : SSELineParse
  | pother (k : List Char) : SSELineParse
deriving DecidableEq

/-- Split at the first `':'`: `line.indexOf(':')` together with the two
`slice` calls of `parseSSELine`; `none` when the line has no colon. -/
def splitFirstColon : List Char → Option (List Char × List Char)
  | [] => none
  | c :: rest =>
    if c = ':' then some ([], rest)
    else
      match splitFirstColon rest with
      | none => none
      | some (f, v) => some (c :: f, v)

/-- The `value.startsWith(' ')` strip: remove at most one leading space. -/
def stripOneSpace (v : List Char) : List Char :=
  match v with
  | ' ' :: r => r
  | _ => v

/-- Model of `parseSSELine` from `sse.ts`: empty and comment lines give
`null`; a line with no colon becomes the object `{ [line]: '' }`; a
`field:value` line strips at most one leading space from the value and
recognizes exactly the fields `event`, `data`, `id`, `retry` (the last
parsed with `parseInt(value, 10)`), returning `null` otherwise. -/
def parseSSELine (line : List Char) : Option SSELineParse :=
  if line = [] then none
  else if line.head? = some ':' then none
  else
    match splitFirstColon line with
    | some (field, rawValue) =>
      let value := stripOneSpace rawValue
      if field = evKey then some (.pevent value)
      else if field = dataKey then some (.pdata value)
      else if field = idKey then some (.pid value)
      else if field = retryKey then some (.pretry (parseIntJs value))
      else none
    | none =>
      if line = evKey then some (.pevent [])
      else if line = dataKey then some (.pdata [])
      else if line = idKey then some (.pid [])
      else if line = retryKey then some (.pretry (.str []))
      else some (.pother line)

/-- The `Object.assign(currentMessage, parsed)` merge. -/
def SSEMessage.applyParsed (m : SSEMessage) : Option SSELineParse → SSEMessage
  | none => m
  | some (.pevent v) => { m with event := some v }
  | some (.pdata v) => { m with data := some v }
  | some (.pid v) => { m with id := some v }
  | some (.pretry v) => { m with retry := some v }
  | some (.pother _) => m

section Machines

variable (jparse : List Char → Option Json)

/-- One line of the record loop of `parseSSEStream`: a blank line
finalizes the accumulated record (emitting its parsed `data` payload when
present and parseable, nothing otherwise) and always resets the
accumulator; any other line is folded into the accumulator. -/
def sseLineStep (m : SSEMessage) (line : List Char) : SSEMessage × List Json :=
  if line = [] then
    match m.data with
    | some d => (emptyMsg, (jparse d).toList)
    | none => (emptyMsg, [])
  else (m.applyParsed (parseSSELine line), [])

/-- End-of-stream handling of `parseSSEStream`: when a non-empty partial
line remains in the reassembly buffer it is parsed as a final field line,
and the accumulated record is finalized if it then has a `data` field;
with an empty buffer nothing happens. -/
def sseFinishBuf (m : SSEMessage) (buf : List Char) : List Json :=
  if buf = [] then []
  else
    let m2 := m.applyParsed (parseSSELine buf)
    match m2.data with
    | some d => (jparse d).toList
    | none => []

end Machines

/-- JS `buffer.split('\n')`: always non-empty; the final element is the
trailing (possibly empty) segment after the last newline. -/
def splitNL : List Char → List (List Char)
  | [] => [[]]
  | c :: rest =>
    if c = '\n' then [] :: splitNL rest
    else
      match splitNL rest with
      | [] => [[c]]
      | l :: ls => (c :: l) :: ls

/-- Prepend a prefix onto the first element of a line list. -/
def glueFirst (p : List Char) : List (List Char) → List (List Char)
  | [] => [p]
  | l :: ls => (p ++ l) :: ls

/-- Replacement character emitted by the decoder on invalid input. -/
def replChar : Char := Char.ofNat 0xFFFD

/-- Number of bytes of the UTF-8 sequence begun by lead byte `b`. -/
def utf8NeedLen (b : Nat) : Nat :=
  if b < 0xE0 then 2 else if b < 0xF0 then 3 else 4

/-- Decode one complete UTF-8 byte sequence into a character. -/
def utf8FinishSeq (bs : List Nat) : Char :=
  match bs with
  | [b] => Char.ofNat b
  | [b1, b2] => Char.ofNat ((b1 % 32) * 64 + b2 % 64)
  | [b1, b2, b3] => Char.ofNat ((b1 % 16) * 4096 + (b2 % 64) * 64 + b3 % 64)
  | [b1, b2, b3, b4] =>
    Char.ofNat ((b1 % 8) * 262144 + (b2 % 64) * 4096 + (b3 % 64) * 64 + b4 % 64)
  | _ => replChar

/-- One byte of the incremental text decoder (`TextDecoder` with
`stream: true`): `p` is the pending incomplete multi-byte sequence kept
across chunk boundaries.  On valid UTF-8 input it decodes each sequence
exactly when its last byte arrives; invalid bytes produce a replacement
character (the exact replacement policy is irrelevant to the claims,
which only evaluate it on valid input). -/
def utf8DecodeLead (b : Nat) : List Char × List Nat :=
  if b < 0x80 then ([Char.ofNat b], [])
  else if b < 0xC2 then ([replChar], [])
  else if b < 0xF5 then ([], [b])
  else ([replChar], [])

def utf8Decode1 (p : List Nat) (b : Nat) : List Char × List Nat :=
  match p with
  | [] => utf8DecodeLead b
  | lead :: _ =>
    if 0x80 ≤ b ∧ b ≤ 0xBF then
      if p.length + 1 = utf8NeedLen lead then ([utf8FinishSeq (p ++ [b])], [])
      else ([], p ++ [b])
    else (replChar :: (utf8DecodeLead b).1, (utf8DecodeLead b).2)

/-- Fold step threading decoded characters and the pending bytes. -/
def utf8Step (acc : List Char × List Nat) (b : Nat) : List Char × List Nat :=
  (acc.1 ++ (utf8Decode1 acc.2 b).1, (utf8Decode1 acc.2 b).2)

/-- Decode one chunk, starting from pending bytes `p`; returns the decoded
characters and the new pending bytes (`decoder.decode(value, lbrace stream: true rbrace)`). -/
def utf8DecodeChunk (p : List Nat) (chunk : List Nat) : List Char × List Nat :=
  chunk.foldl utf8Step ([], p)

/-- A per-line decoding machine: state plus the events one line emits. -/
structure LineMachine (σ ε : Type) where
  step : σ → List Char → σ × List ε

/-- Fold a machine over a list of complete lines, concatenating events. -/
def stepLines {σ ε : Type} (M : LineMachine σ ε) :
    σ → List (List Char) → σ × List ε
  | s, [] => (s, [])
  | s, l :: ls =>
    ((stepLines M (M.step s l).1 ls).1,
     (M.step s l).2 ++ (stepLines M (M.step s l).1 ls).2)

/-- State threaded through the chunk loop of both stream variants: the
pending bytes of the incremental text decoder, the carry-over line buffer,
and the per-line machine state. -/
structure PipeState (σ : Type) where
  pend : List Nat
  buf : List Char
  st : σ

/-- One iteration of the read loop, as in both `createStream` variants and
`parseSSEStream`: decode the chunk, append to the buffer, split on
newlines, keep the trailing partial line, process the complete lines. -/
def chunkStep {σ ε : Type} (M : LineMachine σ ε) (p : PipeState σ)
    (chunk : List Nat) : PipeState σ × List ε :=
  let dec := utf8DecodeChunk p.pend chunk
  let parts := splitNL (p.buf ++ dec.1)
  let out := stepLines M p.st parts.dropLast
  (⟨dec.2, parts.getLastD [], out.1⟩, out.2)

/-- The whole read loop over a list of chunks. -/
def runChunks {σ ε : Type} (M : LineMachine σ ε) (p : PipeState σ) :
    List (List Nat) → PipeState σ × List ε
  | [] => (p, [])
  | c :: cs =>
    ((runChunks M (chunkStep M p c).1 cs).1,
     (chunkStep M p c).2 ++ (runChunks M (chunkStep M p c).1 cs).2)

/-- The initial pipeline state around machine state `s0`. -/
def initPipe {σ : Type} (s0 : σ) : PipeState σ := ⟨[], [], s0⟩

/-- Run the full pipeline from the initial state. -/
def runPipeline {σ ε : Type} (M : LineMachine σ ε) (s0 : σ)
    (chunks : List (List Nat)) : PipeState σ × List ε :=
  runChunks M (initPipe s0) chunks

/-- The record machine of `parseSSEStream`, packaged for the pipeline. -/
def sseM (jparse : List Char → Option Json) : LineMachine SSEMessage Json :=
  ⟨sseLineStep jparse⟩

/-- Model of `parseSSEStream` from `sse.ts` over a list of byte chunks:
run the read loop, then apply the end-of-stream handling to whatever
partial line remains in the buffer.  The unchecked cast
`JSON.parse(...) as StreamEvent` is modelled by yielding the parsed JSON
value itself. -/
def parseSSEStream (jparse : List Char → Option Json)
    (chunks : List (List Nat)) : List Json :=
  ((runPipeline (sseM jparse) emptyMsg chunks).2) ++
    sseFinishBuf jparse (runPipeline (sseM jparse) emptyMsg chunks).1.st
      (runPipeline (sseM jparse) emptyMsg chunks).1.buf

/-- The final pipeline state of `parseSSEStream`, exposed so that theorems
can talk about the accumulated record at end of stream. -/
def sseFinalPipe (jparse : List Char → Option Json)
    (chunks : List (List Nat)) : PipeState SSEMessage :=
  (runPipeline (sseM jparse) emptyMsg chunks).1

/-- Run status enumeration from `types/run.ts`. -/
inductive RunStatus where
  | queued : RunStatus
  | running : RunStatus
  | succeeded : RunStatus
  | failed : RunStatus
  | canceled : RunStatus
  | timedOut : RunStatus
deriving DecidableEq

/-- The `Run` snapshots synthesized by the stream functions.  Field values
are the JS values the code stores: property reads on events may be
undefined, hence the options. -/
structure Run where
  runId : Option Json
  status : Option RunStatus
  result : Option Json
  usage : Option Json

/-- One event of the rich-protocol fold: `run.completed` and `run.failed`
overwrite the tracked final run, every other event leaves it unchanged. -/
def richStep (acc : Option Run) (ev : Json) : Option Run :=
  if ev.isTypeTag runCompletedLit then
    some ⟨ev.get richRunIdKey, some .succeeded, ev.get resultKey, ev.get usageKey⟩
  else if ev.isTypeTag runFailedLit then
    some ⟨ev.get richRunIdKey, some .failed, none, none⟩
  else acc

/-- Model of the rich-protocol `createStream`: yield every event of
`parseSSEStream`, fold the final run over them, and either throw the
no-completion error or return the tracked run. -/
def createStreamRich (jparse : List Char → Option Json)
    (chunks : List (List Nat)) : List Json × Except (List Char) Run :=
  (parseSSEStream jparse chunks,
   match (parseSSEStream jparse chunks).foldl richStep none with
   | none => .error noCompletionMsg
   | some r => .ok r)

/-- Events of the delta protocol (`done`, `error`, `delta`), each carrying
the current correlation id as the code yields it. -/
inductive DeltaEvent where
  | done (runId : Json) : DeltaEvent
  | error (runId : Json) (message : Json) (code : Option Json) : DeltaEvent
  | delta (runId : Json) (content : List Char) : DeltaEvent

/-- State of the delta-protocol line loop: the current correlation id
(a JS value: seeded with a string, possibly overwritten with whatever
truthy value a `run_id` record carries) and the `isError` flag. -/
structure DeltaState where
  runId : Json
  isError : Bool

/-- One line of the delta-protocol `createStream` loop, translated branch
by branch: trim; skip blank and comment lines; `event:` lines set the
`isError` flag to whether the event type is `error`; `data:` lines emit
`done` on the `[DONE]` sentinel and otherwise JSON-parse the content,
preferring in order the `run_id` update, the error branch (entered when
the flag is set or the payload has a truthy `error` field, and clearing
the flag), and the non-empty string delta content; malformed JSON is
skipped. -/
def deltaLineStep (jparse : List Char → Option Json) (st : DeltaState)
    (line : List Char) : DeltaState × List DeltaEvent :=
  let trimmed := jsTrim line
  if trimmed = [] ∨ trimmed.head? = some ':' then (st, [])
  else if trimmed.take 6 = eventColon then
    ({ st with isError := jsTrim (trimmed.drop 6) = errorLit }, [])
  else if trimmed.take 5 = dataColon then
    let dataContent := jsTrim (trimmed.drop 5)
    if dataContent = doneLit then (st, [.done st.runId])
    else
      match jparse dataContent with
      | none => (st, [])
      | some payload =>
        if jsTruthy (payload.get runIdKey) then
          (⟨(payload.get runIdKey).getD Json.null, st.isError⟩, [])
        else if st.isError || jsTruthy (payload.get errorLit) then
          (⟨st.runId, false⟩,
           [.error st.runId
              (jsOr (payload.get detailsKey)
                (jsOr (payload.get errorLit) (.str unknownErrorLit)))
              (payload.get codeKey)])
        else
          match deltaContent payload with
          | some (.str s) => if s.isEmpty then (st, []) else (st, [.delta st.runId s])
          | _ => (st, [])
  else (st, [])

/-- The delta-protocol machine, packaged for the pipeline. -/
def deltaM (jparse : List Char → Option Json) : LineMachine DeltaState DeltaEvent :=
  ⟨deltaLineStep jparse⟩

/-- Initial correlation id: `response.headers.get('x-run-id') || ''`. -/
def initRunId (header : Option (List Char)) : Json :=
  .str (header.getD [])

/-- Final `return runId ? lbrace runId, status: 'succeeded' rbrace : undefined`
of the delta-protocol `createStream`. -/
def deltaSynth (st : DeltaState) : Option Run :=
  if st.runId.truthy then some ⟨some st.runId, some .succeeded, none, none⟩
  else none

/-- Model of the delta-protocol `createStream`: the emitted events and the
synthesized final run.  The delta variant has no end-of-stream handling
for a trailing partial line: whatever remains in the buffer is dropped. -/
def createStreamDelta (jparse : List Char → Option Json)
    (header : Option (List Char)) (chunks : List (List Nat)) :
    List DeltaEvent × Option Run :=
  ((runPipeline (deltaM jparse) ⟨initRunId header, false⟩ chunks).2,
   deltaSynth (runPipeline (deltaM jparse) ⟨initRunId header, false⟩ chunks).1.st)

/-- The correlation id carried by one delta-protocol line, when that line
is a data record whose payload updates the stream correlation id (a
truthy `run_id` field); mirrors exactly the update branch of
`deltaLineStep`. -/
def extractRunId (jparse : List Char → Option Json) (line : List Char) :
    Option Json :=
  let trimmed := jsTrim line
  if trimmed = [] ∨ trimmed.head? = some ':' then none
  else if trimmed.take 6 = eventColon then none
  else if trimmed.take 5 = dataColon then
    let dataContent := jsTrim (trimmed.drop 5)
    if dataContent = doneLit then none
    else
      match jparse dataContent with
      | none => none
      | some payload =>
        if jsTruthy (payload.get runIdKey) then payload.get runIdKey
        else none
  else none

/-- The text decoded from the full byte stream. -/
def decodedText (chunks : List (List Nat)) : List Char :=
  (utf8DecodeChunk [] chunks.flatten).1

/-- All complete lines the read loop processes for a given byte stream
(the trailing partial line, complete or empty, is the buffer). -/
def allLines (chunks : List (List Nat)) : List (List Char) :=
  (splitNL (decodedText chunks)).dropLast

/-- The correlation ids the delta-protocol stream observes, in order: the
seed from the `x-run-id` response header when truthy, then the truthy
`run_id` values of the meta records among the processed lines.  This is
the claim-side abstraction used to state the run-synthesis property. -/
def observedIds (jparse : List Char → Option Json)
    (header : Option (List Char)) (chunks : List (List Nat)) : List Json :=
  (if (initRunId header).truthy then [initRunId header] else []) ++
    (allLines chunks).filterMap (extractRunId jparse)

/-- UTF-8 encoding of one character (what a compliant producer puts on
the wire). -/
def utf8EncodeChar (c : Char) : List Nat :=
  let n := c.toNat
  if n < 128 then [n]
  else if n < 2048 then [192 + n / 64, 128 + n % 64]
  else if n < 65536 then [224 + n / 4096, 128 + (n / 64) % 64, 128 + n % 64]
  else [240 + n / 262144, 128 + (n / 4096) % 64, 128 + (n / 64) % 64,
        128 + n % 64]

/-- UTF-8 serialization of a string. -/
def utf8Encode (s : List Char) : List Nat := (s.map utf8EncodeChar).flatten

/-- Stub for `JSON.parse` on the concrete payloads of the witnesses: the
text `1` parses to the number 1, everything else is a parse error. -/
def jparse1 : List Char → Option Json :=
  fun s => if s = ['1'] then some (.num 1) else none

def c3s : List Char :=
  ['i', 'd', ':', ' ', 'é', '\n', 'd', 'a', 't', 'a', ':', '1', '\n', '\n']

def c3chunks : List (List Nat) :=
  [(utf8Encode c3s).take 5, (utf8Encode c3s).drop 5]

/-- Events with the `run.completed` or `run.failed` type tag, the ones the
rich-protocol fold reacts to. -/
def isCompletionEv (e : Json) : Bool :=
  e.isTypeTag runCompletedLit || e.isTypeTag runFailedLit

/-- Concrete `run.completed` event payload for the C1 witness. -/
def c1EventObj : Json :=
  .obj [(typeKey, .str runCompletedLit), (richRunIdKey, .str ['r', '1']),
        (resultKey, .str ['a', 'n', 's']), (usageKey, .num 3)]

/-- Stub for `JSON.parse` mapping the witness payload text to the
completed-event object. -/
def jparseC1 : List Char → Option Json :=
  fun s => if s = ['e', 'v', 'C'] then some c1EventObj else none

def c1chunks : List (List Nat) :=
  [utf8Encode ['d', 'a', 't', 'a', ':', ' ', 'e', 'v', 'C', '\n', '\n']]

/-- C2 counterexample input: a record with a `data` field whose text ends
with a newline but no blank line.  At end of stream the buffer is empty,
so `parseSSEStream` skips the whole trailing-record block and the record
is dropped even though the accumulator holds parseable data. -/
def c2chunk : List Nat := utf8Encode ['d', 'a', 't', 'a', ':', ' ', '1', '\n']

/-- C4 counterexample payload: carries `run_id`, `error` and a non-empty
`choices[0].delta.content` at once; the `run_id` branch wins and no error
event is emitted, contrary to the claim. -/
def c4Payload : Json :=
  .obj [(runIdKey, .str ['r']), (errorLit, .str ['b', 'o', 'o', 'm']),
        (choicesKey, .arr [.obj [(deltaKey, .obj [(contentKey, .str ['h', 'i'])])]])]

def jparseC4 : List Char → Option Json :=
  fun s => if s = ['p', 'x'] then some c4Payload else none

/-- Payload for the C4 witness: a truthy `error` plus a non-empty content
string and no `run_id`. -/
def c4wPayload : Json :=
  .obj [(errorLit, .str ['b', 'a', 'd']),
        (choicesKey, .arr [.obj [(deltaKey, .obj [(contentKey, .str ['h', 'i'])])]])]

def jparseC4w : List Char → Option Json :=
  fun s => if s = ['p', 'w'] then some c4wPayload else none

/-- Well-formed delta payload (content only, no error or run_id fields)
for the C10 witness. -/
def c10Payload : Json :=
  .obj [(choicesKey, .arr [.obj [(deltaKey, .obj [(contentKey, .str ['h', 'i'])])]])]

def jparseC10 : List Char → Option Json :=
  fun s => if s = ['w', 'f'] then some c10Payload else none

/-- One result of `reader.read()`: a byte chunk, or a rejected read
(transport error).  An exhausted list models `done: true`. -/
inductive ReadStep where
  | chunk (bytes : List Nat) : ReadStep
  | readError : ReadStep

/-- Observable actions of one consumption of a stream generator: events
delivered to the consumer, the release of the network reader, the
returned value, or a thrown error. -/
inductive StreamAction (ε ρ : Type) where
  | yield (e : ε) : StreamAction ε ρ
  | release : StreamAction ε ρ
  | retVal (r : ρ) : StreamAction ε ρ
  | threw : StreamAction ε ρ

/-- Deliver pending events to a consumer that accepts `budget` more
events (`none`: drains everything).  Returns the yield actions, the
remaining budget, and whether the consumer abandoned iteration (called
the generator's `return`, which in JS runs the `finally` block). -/
def emitYields {ε ρ : Type} : Option Nat → List ε →
    List (StreamAction ε ρ) × Option Nat × Bool
  | b, [] => ([], b, false)
  | some 0, _ :: _ => ([], some 0, true)
  | some (n + 1), e :: es =>
    ((emitYields (ρ := ρ) (some n) es).1.cons (.yield e),
     (emitYields (ρ := ρ) (some n) es).2.1,
     (emitYields (ρ := ρ) (some n) es).2.2)
  | none, e :: es =>
    ((emitYields (ρ := ρ) none es).1.cons (.yield e),
     (emitYields (ρ := ρ) none es).2.1,
     (emitYields (ρ := ρ) none es).2.2)

/-- The read loop of either `createStream` variant as a trace builder:
every exit — normal end of stream (`fin`), a rejected read, or consumer
abandonment — runs the `finally` block, which is the single `.release`
action on each path, exactly as in the source. -/
def consumeLoop {σ ε ρ : Type} (M : LineMachine σ ε)
    (fin : PipeState σ → Option Nat → List ε → List (StreamAction ε ρ)) :
    PipeState σ → Option Nat → List ε → List ReadStep →
    List (StreamAction ε ρ)
  | p, budget, seen, [] => fin p budget seen
  | _, _, _, .readError :: _ => [.release, .threw]
  | p, budget, seen, .chunk c :: reads =>
    let em := emitYields (ρ := ρ) budget (chunkStep M p c).2
    if em.2.2 then em.1 ++ [.release]
    else em.1 ++
      consumeLoop M fin (chunkStep M p c).1 em.2.1
        (seen ++ (chunkStep M p c).2) reads

/-- End of the delta-protocol loop: release, then return the synthesized
run (the delta variant has no trailing-buffer handling). -/
def finDelta : PipeState DeltaState → Option Nat → List DeltaEvent →
    List (StreamAction DeltaEvent (Option Run)) :=
  fun p _ _ => [.release, .retVal (deltaSynth p.st)]

/-- End of the rich-protocol loop: the end-of-stream events of
`parseSSEStream` are still yielded (under the remaining budget), then the
reader is released, then the tracked final run is returned or the
no-completion error is thrown. -/
def finRich (jparse : List Char → Option Json) :
    PipeState SSEMessage → Option Nat → List Json →
    List (StreamAction Json Run) :=
  fun p budget seen =>
    if (emitYields (ρ := Run) budget (sseFinishBuf jparse p.st p.buf)).2.2 then
      (emitYields (ρ := Run) budget (sseFinishBuf jparse p.st p.buf)).1 ++
        [.release]
    else
      (emitYields (ρ := Run) budget (sseFinishBuf jparse p.st p.buf)).1 ++
        [.release] ++
        (match (seen ++ sseFinishBuf jparse p.st p.buf).foldl richStep none with
         | none => [.threw]
         | some r => [.retVal r])

/-- One full consumption of the delta-protocol stream. -/
def consumeDelta (jparse : List Char → Option Json)
    (header : Option (List Char)) (budget : Option Nat)
    (reads : List ReadStep) : List (StreamAction DeltaEvent (Option Run)) :=
  consumeLoop (deltaM jparse) finDelta (initPipe ⟨initRunId header, false⟩)
    budget [] reads

/-- One full consumption of the rich-protocol stream. -/
def consumeRich (jparse : List Char → Option Json) (budget : Option Nat)
    (reads : List ReadStep) : List (StreamAction Json Run) :=
  consumeLoop (sseM jparse) (finRich jparse) (initPipe emptyMsg) budget [] reads

def isRelease {ε ρ : Type} : StreamAction ε ρ → Bool
  | .release => true
  | _ => false

/-- Number of reader releases in a consumption trace. -/
def releaseCount {ε ρ : Type} (acts : List (StreamAction ε ρ)) : Nat :=
  acts.countP isRelease


theorem splitNL_ne_nil (x : List Char) : splitNL x ≠ [] := by
  cases x with
  | nil => simp [splitNL]
  | cons c rest =>
    simp only [splitNL]
    split
    · simp
    · split <;> simp

theorem splitNL_cons_newline (rest : List Char) :
    splitNL ('\n' :: rest) = [] :: splitNL rest := by
  simp [splitNL]

theorem splitNL_cons_ne (c : Char) (rest : List Char) (h : c ≠ '\n') :
    splitNL (c :: rest) = glueFirst [c] (splitNL rest) := by
  simp only [splitNL, if_neg h]
  cases h2 : splitNL rest with
  | nil => exact absurd h2 (splitNL_ne_nil rest)
  | cons l ls => simp [glueFirst]

theorem glueFirst_cons (p : List Char) (l : List Char) (ls : List (List Char)) :
    glueFirst p (l :: ls) = (p ++ l) :: ls := rfl

theorem glueFirst_glueFirst (p q : List Char) (t : List (List Char)) :
    glueFirst p (glueFirst q t) = glueFirst (p ++ q) t := by
  cases t <;> simp [glueFirst]

theorem glueFirst_ne_nil (p : List Char) (t : List (List Char)) :
    glueFirst p t ≠ [] := by
  cases t <;> simp [glueFirst]

theorem getLastD_of_ne_nil {α : Type} (l : List α) (d d2 : α) (h : l ≠ []) :
    l.getLastD d = l.getLastD d2 := by
  rw [List.getLastD_eq_getLast?, List.getLastD_eq_getLast?,
    List.getLast?_eq_getLast l h]
  simp

theorem dropLast_append_ne {α : Type} (xs ys : List α) (h : ys ≠ []) :
    (xs ++ ys).dropLast = xs ++ ys.dropLast := by
  induction xs with
  | nil => rfl
  | cons a t ih =>
    have : t ++ ys ≠ [] := by
      intro hc
      exact h (List.append_eq_nil.mp hc).2
    cases h2 : t ++ ys with
    | nil => exact absurd h2 this
    | cons b u =>
      simp only [List.cons_append, h2, List.dropLast_cons₂]
      rw [← h2, ih]

theorem getLastD_append_ne {α : Type} (xs ys : List α) (d : α) (h : ys ≠ []) :
    (xs ++ ys).getLastD d = ys.getLastD d := by
  induction xs with
  | nil => rfl
  | cons a t ih =>
    have hne : t ++ ys ≠ [] := by
      intro hc
      exact h (List.append_eq_nil.mp hc).2
    rw [List.cons_append, List.getLastD_cons,
      getLastD_of_ne_nil (t ++ ys) a d hne, ih]

theorem splitNL_append (a b : List Char) :
    splitNL (a ++ b) =
      (splitNL a).dropLast ++ glueFirst ((splitNL a).getLastD []) (splitNL b) := by
  induction a with
  | nil =>
    simp only [List.nil_append, splitNL, List.dropLast_single, List.getLastD_cons]
    cases h : splitNL b with
    | nil => exact absurd h (splitNL_ne_nil b)
    | cons l ls => simp [glueFirst]
  | cons c rest ih =>
    by_cases hc : c = '\n'
    · subst hc
      rw [List.cons_append, splitNL_cons_newline, splitNL_cons_newline, ih]
      cases h : splitNL rest with
      | nil => exact absurd h (splitNL_ne_nil rest)
      | cons l ls =>
        cases ls with
        | nil => simp [List.getLastD_cons]
        | cons l2 ls2 => simp [List.getLastD_cons]
    · rw [List.cons_append, splitNL_cons_ne c (rest ++ b) hc,
        splitNL_cons_ne c rest hc, ih]
      cases h : splitNL rest with
      | nil => exact absurd h (splitNL_ne_nil rest)
      | cons l ls =>
        cases ls with
        | nil =>
          simp only [glueFirst_cons, List.dropLast_single,
            List.getLastD_cons, List.getLastD_nil, List.nil_append,
            List.singleton_append, glueFirst_glueFirst]
        | cons l2 ls2 =>
          simp only [glueFirst_cons, List.dropLast_cons₂,
            List.getLastD_cons, List.singleton_append, List.cons_append]

theorem mem_splitNL_no_nl (x : List Char) (l : List Char)
    (h : l ∈ splitNL x) : '\n' ∉ l := by
  induction x generalizing l with
  | nil =>
    simp only [splitNL, List.mem_singleton] at h
    subst h; simp
  | cons c rest ih =>
    by_cases hc : c = '\n'
    · subst hc
      rw [splitNL_cons_newline] at h
      rcases List.mem_cons.mp h with h1 | h1
      · subst h1; simp
      · exact ih l h1
    · rw [splitNL_cons_ne c rest hc] at h
      cases h2 : splitNL rest with
      | nil => exact absurd h2 (splitNL_ne_nil rest)
      | cons m ms =>
        rw [h2] at h
        simp only [glueFirst, List.mem_cons] at h
        rcases h with h1 | h1
        · subst h1
          intro hmem
          rcases List.mem_cons.mp hmem with h3 | h3
          · exact hc h3.symm
          · exact ih m (by rw [h2]; exact List.mem_cons_self m ms) h3
        · exact ih l (by rw [h2]; exact List.mem_cons_of_mem m h1)

theorem splitNL_eq_single (x : List Char) (h : '\n' ∉ x) :
    splitNL x = [x] := by
  induction x with
  | nil => rfl
  | cons c rest ih =>
    have hc : c ≠ '\n' := by
      intro hc; exact h (by rw [hc]; exact List.mem_cons_self '\n' rest)
    have hrest : '\n' ∉ rest := by
      intro hm; exact h (List.mem_cons_of_mem c hm)
    rw [splitNL_cons_ne c rest hc, ih hrest]
    simp [glueFirst]

theorem getLastD_mem_splitNL (x : List Char) :
    (splitNL x).getLastD [] ∈ splitNL x := by
  cases h : splitNL x with
  | nil => exact absurd h (splitNL_ne_nil x)
  | cons l ls =>
    rw [List.getLastD_eq_getLast?, List.getLast?_eq_getLast (l :: ls) (by simp)]
    simp only [Option.getD_some]
    exact List.getLast_mem (by simp)

theorem utf8_foldl_acc (chunk : List Nat) (cs : List Char) (p : List Nat) :
    chunk.foldl utf8Step (cs, p) =
      (cs ++ (chunk.foldl utf8Step ([], p)).1, (chunk.foldl utf8Step ([], p)).2) := by
  induction chunk generalizing cs p with
  | nil => simp
  | cons b t ih =>
    simp only [List.foldl_cons]
    rw [ih, ih ((utf8Step ([], p) b)).1 ((utf8Step ([], p) b)).2]
    simp [utf8Step, List.append_assoc]

theorem utf8DecodeChunk_append (p c1 c2 : List Nat) :
    utf8DecodeChunk p (c1 ++ c2) =
      ((utf8DecodeChunk p c1).1 ++ (utf8DecodeChunk (utf8DecodeChunk p c1).2 c2).1,
       (utf8DecodeChunk (utf8DecodeChunk p c1).2 c2).2) := by
  unfold utf8DecodeChunk
  rw [List.foldl_append]
  rw [utf8_foldl_acc c2 (c1.foldl utf8Step ([], p)).1 (c1.foldl utf8Step ([], p)).2]

theorem stepLines_append {σ ε : Type} (M : LineMachine σ ε) (s : σ)
    (l1 l2 : List (List Char)) :
    stepLines M s (l1 ++ l2) =
      ((stepLines M (stepLines M s l1).1 l2).1,
       (stepLines M s l1).2 ++ (stepLines M (stepLines M s l1).1 l2).2) := by
  induction l1 generalizing s with
  | nil => simp [stepLines]
  | cons l t ih =>
    simp only [List.cons_append, stepLines, List.append_eq]
    rw [ih]
    simp [List.append_assoc]

theorem chunkStep_fusion {σ ε : Type} (M : LineMachine σ ε) (p : PipeState σ)
    (c1 c2 : List Nat) :
    chunkStep M p (c1 ++ c2) =
      ((chunkStep M (chunkStep M p c1).1 c2).1,
       (chunkStep M p c1).2 ++ (chunkStep M (chunkStep M p c1).1 c2).2) := by
  unfold chunkStep
  simp only
  rw [utf8DecodeChunk_append]
  have hbuf1 : '\n' ∉ (splitNL (p.buf ++ (utf8DecodeChunk p.pend c1).1)).getLastD [] :=
    mem_splitNL_no_nl _ _ (getLastD_mem_splitNL _)
  rw [show p.buf ++ ((utf8DecodeChunk p.pend c1).1 ++
      (utf8DecodeChunk (utf8DecodeChunk p.pend c1).2 c2).1) =
      (p.buf ++ (utf8DecodeChunk p.pend c1).1) ++
      (utf8DecodeChunk (utf8DecodeChunk p.pend c1).2 c2).1 from
    (List.append_assoc _ _ _).symm]
  rw [splitNL_append]
  rw [splitNL_append ((splitNL (p.buf ++ (utf8DecodeChunk p.pend c1).1)).getLastD [])
    ((utf8DecodeChunk (utf8DecodeChunk p.pend c1).2 c2).1)]
  rw [splitNL_eq_single _ hbuf1]
  simp only [List.dropLast_single, List.getLastD_cons, List.getLastD_nil,
    List.nil_append]
  rw [dropLast_append_ne _ _ (glueFirst_ne_nil _ _),
    getLastD_append_ne _ _ _ (glueFirst_ne_nil _ _)]
  rw [stepLines_append]

theorem chunkStep_nil {σ ε : Type} (M : LineMachine σ ε) (p : PipeState σ)
    (h : '\n' ∉ p.buf) : chunkStep M p [] = (p, []) := by
  unfold chunkStep
  simp only [utf8DecodeChunk, List.foldl_nil, List.append_nil]
  rw [splitNL_eq_single p.buf h]
  simp [stepLines]

theorem runChunks_cons_cons {σ ε : Type} (M : LineMachine σ ε) (p : PipeState σ)
    (c1 c2 : List Nat) (cs : List (List Nat)) :
    runChunks M p (c1 :: c2 :: cs) = runChunks M p ((c1 ++ c2) :: cs) := by
  simp only [runChunks]
  rw [chunkStep_fusion]
  simp [List.append_assoc]

theorem runChunks_cons_join {σ ε : Type} (M : LineMachine σ ε)
    (cs : List (List Nat)) : ∀ (c : List Nat) (p : PipeState σ),
    runChunks M p (c :: cs) = runChunks M p [(c :: cs).flatten] := by
  induction cs with
  | nil =>
    intro c p
    simp [List.flatten]
  | cons c2 cs2 ih =>
    intro c p
    rw [runChunks_cons_cons, ih (c ++ c2) p]
    simp [List.flatten, List.append_assoc]

/-- Chunk-boundary invariance of the whole read loop: delivering the
chunks one by one is the same as delivering their concatenation at once. -/
theorem runPipeline_join {σ ε : Type} (M : LineMachine σ ε) (s0 : σ)
    (chunks : List (List Nat)) :
    runPipeline M s0 chunks = runPipeline M s0 [chunks.flatten] := by
  cases chunks with
  | nil =>
    unfold runPipeline
    have h0 : '\n' ∉ (initPipe s0).buf := by simp [initPipe]
    simp [runChunks, chunkStep_nil M (initPipe s0) h0, List.flatten]
  | cons c cs => exact runChunks_cons_join M cs c (initPipe s0)

theorem splitFirstColon_append (f v : List Char) (h : ':' ∉ f) :
    splitFirstColon (f ++ ':' :: v) = some (f, v) := by
  induction f with
  | nil => simp [splitFirstColon]
  | cons c t ih =>
    have hc : c ≠ ':' := fun hcc => h (hcc ▸ List.mem_cons_self c t)
    have ht : ':' ∉ t := fun hm => h (List.mem_cons_of_mem c hm)
    simp [splitFirstColon, hc, ih ht]

theorem splitFirstColon_none (l : List Char) (h : ':' ∉ l) :
    splitFirstColon l = none := by
  induction l with
  | nil => rfl
  | cons c t ih =>
    have hc : c ≠ ':' := fun hcc => h (hcc ▸ List.mem_cons_self c t)
    have ht : ':' ∉ t := fun hm => h (List.mem_cons_of_mem c hm)
    simp [splitFirstColon, hc, ih ht]

theorem parseSSELine_event (v : List Char) :
    parseSSELine (evKey ++ ':' :: v) = some (.pevent (stripOneSpace v)) := by
  have h := splitFirstColon_append evKey v (by decide)
  simp only [parseSSELine, h]
  simp [evKey]

theorem parseSSELine_data (v : List Char) :
    parseSSELine (dataKey ++ ':' :: v) = some (.pdata (stripOneSpace v)) := by
  have h := splitFirstColon_append dataKey v (by decide)
  simp only [parseSSELine, h]
  simp [evKey, dataKey]

theorem parseSSELine_id (v : List Char) :
    parseSSELine (idKey ++ ':' :: v) = some (.pid (stripOneSpace v)) := by
  have h := splitFirstColon_append idKey v (by decide)
  simp only [parseSSELine, h]
  simp [evKey, dataKey, idKey]

theorem parseSSELine_retry (v : List Char) :
    parseSSELine (retryKey ++ ':' :: v) =
      some (.pretry (parseIntJs (stripOneSpace v))) := by
  have h := splitFirstColon_append retryKey v (by decide)
  simp only [parseSSELine, h]
  simp [evKey, dataKey, idKey, retryKey]

theorem parseSSELine_unknown_colon (f v : List Char) (hc : ':' ∉ f)
    (h1 : f ≠ evKey) (h2 : f ≠ dataKey) (h3 : f ≠ idKey) (h4 : f ≠ retryKey) :
    parseSSELine (f ++ ':' :: v) = none := by
  have h := splitFirstColon_append f v hc
  simp only [parseSSELine, h]
  cases f with
  | nil => simp
  | cons c t =>
    have hch : c ≠ ':' := fun hcc => hc (hcc ▸ List.mem_cons_self c t)
    rw [if_neg (by simp), if_neg (by simp [hch])]
    simp [h1, h2, h3, h4]

theorem parseSSELine_comment (line : List Char) (h : line.head? = some ':') :
    parseSSELine line = none := by
  cases line with
  | nil => rfl
  | cons c t =>
    simp only [List.head?_cons, Option.some.injEq] at h
    subst h
    simp [parseSSELine]

theorem parseSSELine_no_colon_unknown (k : List Char) (hne : k ≠ [])
    (hc : ':' ∉ k) (h1 : k ≠ evKey) (h2 : k ≠ dataKey) (h3 : k ≠ idKey)
    (h4 : k ≠ retryKey) : parseSSELine k = some (.pother k) := by
  have hs := splitFirstColon_none k hc
  have hh : k.head? ≠ some ':' := by
    cases k with
    | nil => simp
    | cons c t =>
      intro hcc
      have hce : c = ':' := Option.some.inj (by simpa using hcc)
      exact hc (List.mem_cons.mpr (Or.inl hce.symm))
  simp only [parseSSELine, hs]
  rw [if_neg hne, if_neg hh]
  simp [h1, h2, h3, h4]

theorem deltaLineStep_blank (jparse : List Char → Option Json)
    (st : DeltaState) (line : List Char) (h : jsTrim line = []) :
    deltaLineStep jparse st line = (st, []) := by
  simp only [deltaLineStep, h]
  simp

theorem deltaLineStep_comment (jparse : List Char → Option Json)
    (st : DeltaState) (line : List Char) (h : (jsTrim line).head? = some ':') :
    deltaLineStep jparse st line = (st, []) := by
  simp only [deltaLineStep]
  rw [if_pos (Or.inr h)]

theorem deltaLineStep_event (jparse : List Char → Option Json)
    (st : DeltaState) (line y : List Char) (h : jsTrim line = eventColon ++ y) :
    deltaLineStep jparse st line = ({ st with isError := jsTrim y = errorLit }, []) := by
  simp only [deltaLineStep, h]
  rw [if_neg (by simp [eventColon]),
    if_pos (show (eventColon ++ y).take 6 = eventColon from rfl),
    show (eventColon ++ y).drop 6 = y from rfl]

theorem take6_dataColon_ne (c : List Char) : (dataColon ++ c).take 6 ≠ eventColon := by
  intro h
  rw [show (dataColon ++ c).take 6 = 'd' :: 'a' :: 't' :: 'a' :: ':' :: c.take 1 from rfl,
    show eventColon = 'e' :: 'v' :: 'e' :: 'n' :: 't' :: ':' :: [] from rfl] at h
  injection h with h1 _
  exact absurd h1 (by decide)

theorem deltaLineStep_data (jparse : List Char → Option Json)
    (st : DeltaState) (line c : List Char) (h : jsTrim line = dataColon ++ c) :
    deltaLineStep jparse st line =
      (if jsTrim c = doneLit then (st, [DeltaEvent.done st.runId])
       else
         match jparse (jsTrim c) with
         | none => (st, [])
         | some payload =>
           if jsTruthy (payload.get runIdKey) then
             (⟨(payload.get runIdKey).getD Json.null, st.isError⟩, [])
           else if st.isError || jsTruthy (payload.get errorLit) then
             (⟨st.runId, false⟩,
              [DeltaEvent.error st.runId
                 (jsOr (payload.get detailsKey)
                   (jsOr (payload.get errorLit) (.str unknownErrorLit)))
                 (payload.get codeKey)])
           else
             match deltaContent payload with
             | some (.str s) =>
               if s.isEmpty then (st, []) else (st, [DeltaEvent.delta st.runId s])
             | _ => (st, [])) := by
  simp only [deltaLineStep, h]
  rw [if_neg (by simp [dataColon]), if_neg (take6_dataColon_ne c),
    if_pos (show (dataColon ++ c).take 5 = dataColon from rfl),
    show (dataColon ++ c).drop 5 = c from rfl]

theorem deltaLineStep_runId (jparse : List Char → Option Json)
    (st : DeltaState) (line : List Char) :
    (deltaLineStep jparse st line).1.runId =
      (extractRunId jparse line).getD st.runId := by
  simp only [deltaLineStep, extractRunId]
  split
  · rfl
  · split
    · rfl
    · split
      · split
        · rfl
        · cases hj : jparse (jsTrim ((jsTrim line).drop 5)) with
          | none => rfl
          | some payload =>
            simp only
            split
            · rename_i htr
              cases hp : payload.get runIdKey with
              | none => rw [hp] at htr; simp [jsTruthy] at htr
              | some v => simp [hp]
            · split
              · rfl
              · split
                · split <;> rfl
                · rfl
      · rfl

theorem extractRunId_truthy (jparse : List Char → Option Json)
    (line : List Char) (v : Json) (h : extractRunId jparse line = some v) :
    v.truthy = true := by
  simp only [extractRunId] at h
  split at h
  · exact absurd h (by simp)
  · split at h
    · exact absurd h (by simp)
    · split at h
      · split at h
        · exact absurd h (by simp)
        · cases hj : jparse (jsTrim ((jsTrim line).drop 5)) with
          | none => rw [hj] at h; exact absurd h (by simp)
          | some payload =>
            rw [hj] at h
            simp only at h
            split at h
            · rename_i htr
              rw [h] at htr
              simpa [jsTruthy] using htr
            · exact absurd h (by simp)
      · exact absurd h (by simp)

theorem delta_runId_invariant (jparse : List Char → Option Json)
    (lines : List (List Char)) : ∀ st : DeltaState,
    (stepLines (deltaM jparse) st lines).1.runId =
      (lines.filterMap (extractRunId jparse)).getLastD st.runId := by
  induction lines with
  | nil => intro st; simp [stepLines]
  | cons l ls ih =>
    intro st
    simp only [stepLines, List.filterMap_cons]
    cases hx : extractRunId jparse l with
    | none =>
      rw [ih]
      have hr : (deltaM jparse).step st l = deltaLineStep jparse st l := rfl
      have h1 : ((deltaM jparse).step st l).1.runId = st.runId := by
        rw [hr, deltaLineStep_runId, hx]
        rfl
      cases hfm : ls.filterMap (extractRunId jparse) with
      | nil => simp [List.getLastD_nil, h1]
      | cons a t =>
        rw [getLastD_of_ne_nil (a :: t) (((deltaM jparse).step st l).1.runId)
          st.runId (by simp)]
    | some v =>
      rw [ih]
      have hr : (deltaM jparse).step st l = deltaLineStep jparse st l := rfl
      have h1 : ((deltaM jparse).step st l).1.runId = v := by
        rw [hr, deltaLineStep_runId, hx]
        rfl
      rw [List.getLastD_cons, h1]

theorem runPipeline_state (σ ε : Type) (M : LineMachine σ ε) (s0 : σ)
    (chunks : List (List Nat)) :
    runPipeline M s0 chunks =
      (⟨(utf8DecodeChunk [] chunks.flatten).2,
        (splitNL (utf8DecodeChunk [] chunks.flatten).1).getLastD [],
        (stepLines M s0 (splitNL (utf8DecodeChunk [] chunks.flatten).1).dropLast).1⟩,
       (stepLines M s0 (splitNL (utf8DecodeChunk [] chunks.flatten).1).dropLast).2) := by
  rw [runPipeline_join]
  simp [runPipeline, runChunks, chunkStep, initPipe]

theorem mem_of_getLast?_eq {α : Type} {l : List α} {a : α}
    (h : l.getLast? = some a) : a ∈ l := by
  rcases List.mem_getLast?_eq_getLast (Option.mem_def.mpr h) with ⟨hne, heq⟩
  rw [heq]
  exact List.getLast_mem hne

/-- C6: for every fully drained delta-protocol stream, the final value is
a succeeded Run whose runId is the last observed correlation id (seeded
from the `x-run-id` header or updated by `run_id` meta records) when any
id was observed, and is absent (undefined, not an error) when none was. -/
theorem C6_delta_run_synthesis (jparse : List Char → Option Json)
    (header : Option (List Char)) (chunks : List (List Nat)) :
    (createStreamDelta jparse header chunks).2 =
      match (observedIds jparse header chunks).getLast? with
      | some v => some ⟨some v, some RunStatus.succeeded, none, none⟩
      | none => none := by
  have hst : (runPipeline (deltaM jparse) ⟨initRunId header, false⟩ chunks).1.st =
      (stepLines (deltaM jparse) ⟨initRunId header, false⟩ (allLines chunks)).1 := by
    rw [runPipeline_state]
    rfl
  have hrun : (runPipeline (deltaM jparse) ⟨initRunId header, false⟩ chunks).1.st.runId =
      ((allLines chunks).filterMap (extractRunId jparse)).getLastD (initRunId header) := by
    rw [hst, delta_runId_invariant]
  unfold createStreamDelta
  simp only [deltaSynth]
  cases hfm : (allLines chunks).filterMap (extractRunId jparse) with
  | nil =>
    rw [hfm] at hrun
    simp only [List.getLastD_nil] at hrun
    unfold observedIds
    rw [hfm, hrun]
    by_cases ht : (initRunId header).truthy
    · simp [ht]
    · simp [ht]
  | cons a t =>
    rw [hfm] at hrun
    have hne : a :: t ≠ [] := by simp
    have hlast : (a :: t).getLastD (initRunId header) = (a :: t).getLast hne := by
      rw [List.getLastD_eq_getLast?, List.getLast?_eq_getLast (a :: t) hne]
      rfl
    have hmem : (a :: t).getLast hne ∈ a :: t :=
      List.getLast_mem hne
    have hmem2 : (a :: t).getLast hne ∈
        (allLines chunks).filterMap (extractRunId jparse) := by
      rw [hfm]; exact hmem
    have hsome : ∃ line ∈ allLines chunks,
        extractRunId jparse line = some ((a :: t).getLast hne) :=
      List.mem_filterMap.mp hmem2
    rcases hsome with ⟨line, _, hline⟩
    have htr : ((a :: t).getLast hne).truthy = true :=
      extractRunId_truthy jparse line _ hline
    unfold observedIds
    rw [hfm]
    rw [List.getLast?_append_of_ne_nil _ hne,
      List.getLast?_eq_getLast (a :: t) hne]
    rw [hrun, hlast]
    simp [htr]

/-- C3: chunk-boundary invariance of `parseSSEStream`: for every valid
serialized byte sequence and every partition of it into consecutive
chunks (including splits inside a multi-byte UTF-8 character, inside a
line or inside a field), the event sequence equals the one produced when
the same bytes arrive as a single chunk. -/
theorem C3_chunk_boundary_invariance (jparse : List Char → Option Json)
    (chunks : List (List Nat)) (s : List Char)
    (_hvalid : chunks.flatten = utf8Encode s) :
    parseSSEStream jparse chunks = parseSSEStream jparse [chunks.flatten] := by
  unfold parseSSEStream
  rw [runPipeline_join]

theorem C3_chunk_boundary_invariance_witness :
    c3chunks.flatten = utf8Encode c3s ∧
    parseSSEStream jparse1 c3chunks = parseSSEStream jparse1 [c3chunks.flatten] :=
  ⟨by decide, C3_chunk_boundary_invariance jparse1 c3chunks c3s (by decide)⟩

theorem richStep_skip (a : Option Run) (e : Json)
    (h : isCompletionEv e = false) : richStep a e = a := by
  unfold isCompletionEv at h
  rw [Bool.or_eq_false_iff] at h
  unfold richStep
  rw [if_neg (by simp [h.1]), if_neg (by simp [h.2])]

theorem richFold_skip (l : List Json) (h : ∀ e ∈ l, isCompletionEv e = false)
    (a : Option Run) : l.foldl richStep a = a := by
  induction l generalizing a with
  | nil => rfl
  | cons e t ih =>
    rw [List.foldl_cons, richStep_skip a e (h e (List.mem_cons_self e t))]
    exact ih (fun x hx => h x (List.mem_cons_of_mem e hx)) a

theorem isTypeTag_ne (e : Json) (t1 t2 : List Char)
    (h : e.isTypeTag t1 = true) (hne : t1 ≠ t2) : e.isTypeTag t2 = false := by
  unfold Json.isTypeTag at h ⊢
  split at h
  · rename_i s hs
    simp only [beq_iff_eq] at h
    subst h
    simpa [beq_eq_false_iff_ne] using hne
  · exact absurd h (by simp)

/-- C1: rich-protocol finalization over `createStream` ∘ `parseSSEStream`:
with no `run.completed` or `run.failed` among the produced events the
operation fails with the hard error `Stream ended without completion
event`; when the last such event is `run.completed` it returns a
succeeded Run carrying that event's result and usage; when the last such
event is `run.failed` it returns a failed Run. -/
theorem C1_rich_finalization (jparse : List Char → Option Json)
    (chunks : List (List Nat)) :
    ((∀ e ∈ parseSSEStream jparse chunks, isCompletionEv e = false) →
       (createStreamRich jparse chunks).2 = .error noCompletionMsg)
    ∧ (∀ (pre : List Json) (ev : Json) (post : List Json),
        parseSSEStream jparse chunks = pre ++ ev :: post →
        (∀ e ∈ post, isCompletionEv e = false) →
        ev.isTypeTag runCompletedLit = true →
        (createStreamRich jparse chunks).2 =
          .ok ⟨ev.get richRunIdKey, some RunStatus.succeeded,
               ev.get resultKey, ev.get usageKey⟩)
    ∧ (∀ (pre : List Json) (ev : Json) (post : List Json),
        parseSSEStream jparse chunks = pre ++ ev :: post →
        (∀ e ∈ post, isCompletionEv e = false) →
        ev.isTypeTag runFailedLit = true →
        (createStreamRich jparse chunks).2 =
          .ok ⟨ev.get richRunIdKey, some RunStatus.failed, none, none⟩) := by
  refine ⟨?_, ?_, ?_⟩
  · intro hall
    unfold createStreamRich
    simp only
    rw [richFold_skip _ hall none]
  · intro pre ev post hdec hpost htag
    unfold createStreamRich
    simp only
    rw [hdec, List.foldl_append, List.foldl_cons,
      richFold_skip post hpost]
    unfold richStep
    rw [if_pos htag]
  · intro pre ev post hdec hpost htag
    unfold createStreamRich
    simp only
    rw [hdec, List.foldl_append, List.foldl_cons,
      richFold_skip post hpost]
    unfold richStep
    rw [if_neg (by
        simp [isTypeTag_ne ev runFailedLit runCompletedLit htag (by decide)]),
      if_pos htag]

theorem C1_rich_finalization_witness :
    (createStreamRich jparseC1 c1chunks).2 =
      .ok ⟨c1EventObj.get richRunIdKey, some RunStatus.succeeded,
           c1EventObj.get resultKey, c1EventObj.get usageKey⟩ :=
  (C1_rich_finalization jparseC1 c1chunks).2.1 [] c1EventObj []
    (by rfl) (by intro e he; exact absurd he (List.not_mem_nil e)) (by rfl)

/-- C5: malformed-payload tolerance in both protocols.  Rich record
machine: finalizing a record whose `data` does not parse emits nothing and
resets the accumulator, so the remaining lines decode exactly as if the
bad record had never existed.  Delta machine: a data line whose content
does not parse leaves the state untouched and emits nothing, so the
remaining lines decode unchanged.  In the embedding a parse error is
`jparse _ = none`; no exception reaches the caller by construction. -/
theorem C5_malformed_json_tolerance :
    (∀ (jparse : List Char → Option Json) (m : SSEMessage) (d : List Char)
       (rest : List (List Char)), m.data = some d → jparse d = none →
       stepLines (sseM jparse) m ([] :: rest) =
         stepLines (sseM jparse) emptyMsg rest)
    ∧ (∀ (jparse : List Char → Option Json) (st : DeltaState)
       (line c : List Char) (rest : List (List Char)),
       jsTrim line = dataColon ++ c → jsTrim c ≠ doneLit →
       jparse (jsTrim c) = none →
       stepLines (deltaM jparse) st (line :: rest) =
         stepLines (deltaM jparse) st rest) := by
  constructor
  · intro jparse m d rest hdata hbad
    have hstep : (sseM jparse).step m [] = (emptyMsg, []) := by
      show sseLineStep jparse m [] = (emptyMsg, [])
      unfold sseLineStep
      rw [if_pos rfl, hdata]
      simp [hbad]
    simp [stepLines, hstep]
  · intro jparse st line c rest htrim hdone hbad
    have hstep : (deltaM jparse).step st line = (st, []) := by
      show deltaLineStep jparse st line = (st, [])
      rw [deltaLineStep_data jparse st line c htrim]
      rw [if_neg hdone, hbad]
    simp [stepLines, hstep]

theorem C5_malformed_json_tolerance_witness :
    (stepLines (sseM jparse1) ⟨none, some ['o', 'o', 'p', 's'], none, none⟩
        ([] :: [['d', 'a', 't', 'a', ':', '1'], []]) =
      stepLines (sseM jparse1) emptyMsg [['d', 'a', 't', 'a', ':', '1'], []])
    ∧ (stepLines (deltaM jparse1) ⟨.str ['r'], false⟩
        (['d', 'a', 't', 'a', ':', 'o', 'o', 'p', 's'] :: [['d', 'a', 't', 'a', ':', '1']]) =
      stepLines (deltaM jparse1) ⟨.str ['r'], false⟩ [['d', 'a', 't', 'a', ':', '1']]) :=
  ⟨C5_malformed_json_tolerance.1 jparse1 ⟨none, some ['o', 'o', 'p', 's'], none, none⟩
      ['o', 'o', 'p', 's'] [['d', 'a', 't', 'a', ':', '1'], []] rfl rfl,
   C5_malformed_json_tolerance.2 jparse1 ⟨.str ['r'], false⟩
      ['d', 'a', 't', 'a', ':', 'o', 'o', 'p', 's'] ['o', 'o', 'p', 's']
      [['d', 'a', 't', 'a', ':', '1']] (by decide) (by decide) rfl⟩

/-- C8: field-line grammar of `parseSSELine`: `field:value` lines strip at
most one leading space (a second one is preserved); exactly the fields
`event`, `data`, `id`, `retry` are recognized, `retry` going through
`parseInt(value, 10)`; comment lines and lines with an unrecognized field
name (with or without a colon) leave the accumulated record untouched and
emit nothing (and the total model never crashes by construction). -/
theorem C8_field_line_grammar :
    (∀ v : List Char,
       parseSSELine (evKey ++ ':' :: v) = some (.pevent (stripOneSpace v)))
    ∧ (∀ v : List Char,
       parseSSELine (dataKey ++ ':' :: v) = some (.pdata (stripOneSpace v)))
    ∧ (∀ v : List Char,
       parseSSELine (idKey ++ ':' :: v) = some (.pid (stripOneSpace v)))
    ∧ (∀ v : List Char,
       parseSSELine (retryKey ++ ':' :: v) =
         some (.pretry (parseIntJs (stripOneSpace v))))
    ∧ (∀ v : List Char, stripOneSpace (' ' :: ' ' :: v) = ' ' :: v)
    ∧ (∀ f v : List Char, ':' ∉ f → f ≠ evKey → f ≠ dataKey → f ≠ idKey →
        f ≠ retryKey → parseSSELine (f ++ ':' :: v) = none)
    ∧ (∀ (jparse : List Char → Option Json) (m : SSEMessage) (line : List Char),
        line.head? = some ':' → sseLineStep jparse m line = (m, []))
    ∧ (∀ (jparse : List Char → Option Json) (m : SSEMessage) (f v : List Char),
        ':' ∉ f → f ≠ evKey → f ≠ dataKey → f ≠ idKey → f ≠ retryKey →
        sseLineStep jparse m (f ++ ':' :: v) = (m, []))
    ∧ (∀ (jparse : List Char → Option Json) (m : SSEMessage) (k : List Char),
        k ≠ [] → ':' ∉ k → k ≠ evKey → k ≠ dataKey → k ≠ idKey → k ≠ retryKey →
        sseLineStep jparse m k = (m, [])) := by
  refine ⟨parseSSELine_event, parseSSELine_data, parseSSELine_id,
    parseSSELine_retry, fun v => rfl, parseSSELine_unknown_colon, ?_, ?_, ?_⟩
  · intro jparse m line h
    have hne : line ≠ [] := by
      intro hz; rw [hz] at h; exact Option.noConfusion h
    unfold sseLineStep
    rw [if_neg hne, parseSSELine_comment line h]
    rfl
  · intro jparse m f v hc h1 h2 h3 h4
    have hne : f ++ ':' :: v ≠ [] := by
      intro hz
      exact List.noConfusion ((List.append_eq_nil.mp hz).2)
    unfold sseLineStep
    rw [if_neg hne, parseSSELine_unknown_colon f v hc h1 h2 h3 h4]
    rfl
  · intro jparse m k hne hc h1 h2 h3 h4
    unfold sseLineStep
    rw [if_neg hne, parseSSELine_no_colon_unknown k hne hc h1 h2 h3 h4]
    rfl

theorem C8_field_line_grammar_witness :
    parseSSELine ['e', 'v', 'e', 'n', 't', ':', ' ', ' ', 'x'] =
      some (.pevent [' ', 'x'])
    ∧ parseSSELine ['r', 'e', 't', 'r', 'y', ':', '4', '2'] =
      some (.pretry (.num 42))
    ∧ sseLineStep jparse1 emptyMsg [':', 'h', 'i'] = (emptyMsg, [])
    ∧ sseLineStep jparse1 emptyMsg ['f', 'o', 'o', ':', 'x'] = (emptyMsg, [])
    ∧ sseLineStep jparse1 emptyMsg ['f', 'o', 'o'] = (emptyMsg, []) := by
  refine ⟨?_, ?_, ?_, ?_, ?_⟩
  · have h := (C8_field_line_grammar.1) [' ', ' ', 'x']
    simpa [evKey] using h
  · have h := (C8_field_line_grammar.2.2.2.1) ['4', '2']
    have h2 : parseIntJs (stripOneSpace ['4', '2']) = .num 42 := by decide
    rw [h2] at h
    simpa [retryKey] using h
  · exact (C8_field_line_grammar.2.2.2.2.2.2.1) jparse1 emptyMsg
      [':', 'h', 'i'] rfl
  · have h := (C8_field_line_grammar.2.2.2.2.2.2.2.1) jparse1 emptyMsg
      ['f', 'o', 'o'] ['x'] (by decide) (by decide) (by decide) (by decide)
      (by decide)
    simpa using h
  · exact (C8_field_line_grammar.2.2.2.2.2.2.2.2) jparse1 emptyMsg
      ['f', 'o', 'o'] (by decide) (by decide) (by decide) (by decide)
      (by decide) (by decide)

theorem stepLines_nil {σ ε : Type} (M : LineMachine σ ε) (s : σ) :
    stepLines M s [] = (s, []) := rfl

theorem stepLines_cons {σ ε : Type} (M : LineMachine σ ε) (s : σ)
    (l : List Char) (ls : List (List Char)) :
    stepLines M s (l :: ls) =
      ((stepLines M (M.step s l).1 ls).1,
       (M.step s l).2 ++ (stepLines M (M.step s l).1 ls).2) := rfl

theorem sse_data_lines_acc (jparse : List Char → Option Json)
    (vs : List (List Char)) : ∀ m : SSEMessage, vs ≠ [] →
    stepLines (sseM jparse) m (vs.map (fun v => dataKey ++ ':' :: v)) =
      ({ m with data := some (stripOneSpace (vs.getLastD [])) }, []) := by
  induction vs with
  | nil => intro m h; exact absurd rfl h
  | cons v t ih =>
    intro m _
    have hstep : (sseM jparse).step m (dataKey ++ ':' :: v) =
        ({ m with data := some (stripOneSpace v) }, []) := by
      show sseLineStep jparse m (dataKey ++ ':' :: v) =
        ({ m with data := some (stripOneSpace v) }, [])
      unfold sseLineStep
      rw [if_neg (by simp [dataKey]), parseSSELine_data v]
      rfl
    have hstep1 : ((sseM jparse).step m (dataKey ++ ':' :: v)).1 =
        { m with data := some (stripOneSpace v) } := by rw [hstep]
    have hstep2 : ((sseM jparse).step m (dataKey ++ ':' :: v)).2 = [] := by
      rw [hstep]
    cases t with
    | nil =>
      rw [List.map_cons, List.map_nil, stepLines_cons, hstep1, hstep2,
        stepLines_nil]
      simp [List.getLastD_cons]
    | cons v2 t2 =>
      rw [List.map_cons, stepLines_cons, hstep1, hstep2]
      have ih2 := ih { m with data := some (stripOneSpace v) } (by simp)
      rw [ih2]
      simp only [List.getLastD_cons, List.nil_append]

/-- C9: duplicate `data:` lines in one record are tolerated, deterministic
and last-write-wins: the record finalizes to exactly the event parsed
from the last `data:` line value (no event when that value is
unparseable, which is the same malformed-payload rule as elsewhere). -/
theorem C9_duplicate_data_last_write_wins (jparse : List Char → Option Json)
    (vs : List (List Char)) (hne : vs ≠ []) :
    stepLines (sseM jparse) emptyMsg
        ((vs.map (fun v => dataKey ++ ':' :: v)) ++ [[]]) =
      (emptyMsg, (jparse (stripOneSpace (vs.getLastD []))).toList) := by
  rw [stepLines_append]
  rw [sse_data_lines_acc jparse vs emptyMsg hne]
  simp only [stepLines, sseM, sseLineStep]
  simp

theorem C9_duplicate_data_last_write_wins_witness :
    stepLines (sseM jparse1) emptyMsg
        (([['x'], [' ', '1']].map (fun v => dataKey ++ ':' :: v)) ++ [[]]) =
      (emptyMsg, [Json.num 1]) := by
  have h := C9_duplicate_data_last_write_wins jparse1 [['x'], [' ', '1']]
    (by decide)
  rw [h]
  rfl

theorem C2_counterexample :
    parseSSEStream jparse1 [c2chunk] = []
    ∧ (sseFinalPipe jparse1 [c2chunk]).st.data = some ['1']
    ∧ (sseFinalPipe jparse1 [c2chunk]).buf = []
    ∧ jparse1 ['1'] = some (.num 1) :=
  ⟨rfl, rfl, rfl, rfl⟩

/-- C2 (amended): a record with no `data` field followed by a blank line
yields zero events and resets the accumulator; at end-of-stream the
accumulated record yields its event exactly when a non-empty partial
final line remains (it is processed as a final field line first); when
the input ends with a line terminator (empty buffer) the pending record
is discarded. -/
theorem C2_record_boundaries_amended :
    (∀ (jparse : List Char → Option Json) (m : SSEMessage),
       m.data = none → sseLineStep jparse m [] = (emptyMsg, []))
    ∧ (∀ (jparse : List Char → Option Json) (m : SSEMessage)
       (buf d : List Char) (e : Json), buf ≠ [] →
       (m.applyParsed (parseSSELine buf)).data = some d → jparse d = some e →
       sseFinishBuf jparse m buf = [e])
    ∧ (∀ (jparse : List Char → Option Json) (m : SSEMessage),
       sseFinishBuf jparse m [] = []) := by
  refine ⟨?_, ?_, ?_⟩
  · intro jparse m h
    unfold sseLineStep
    rw [if_pos rfl, h]
  · intro jparse m buf d e hne hdata hp
    unfold sseFinishBuf
    rw [if_neg hne]
    simp [hdata, hp]
  · intro jparse m
    rfl

theorem C2_record_boundaries_amended_witness :
    sseLineStep jparse1 ⟨some ['m'], none, none, none⟩ [] = (emptyMsg, [])
    ∧ sseFinishBuf jparse1 emptyMsg ['d', 'a', 't', 'a', ':', '1'] = [Json.num 1]
    ∧ sseFinishBuf jparse1 ⟨none, some ['1'], none, none⟩ [] = [] :=
  ⟨C2_record_boundaries_amended.1 jparse1 ⟨some ['m'], none, none, none⟩ rfl,
   C2_record_boundaries_amended.2.1 jparse1 emptyMsg
     ['d', 'a', 't', 'a', ':', '1'] ['1'] (.num 1) (by decide) rfl rfl,
   C2_record_boundaries_amended.2.2 jparse1 ⟨none, some ['1'], none, none⟩⟩

theorem C4_counterexample :
    (deltaLineStep jparseC4 ⟨.str [], false⟩
        ['d', 'a', 't', 'a', ':', ' ', 'p', 'x']).2 = []
    ∧ jparseC4 ['p', 'x'] = some c4Payload
    ∧ jsTruthy (c4Payload.get errorLit) = true
    ∧ deltaContent c4Payload = some (.str ['h', 'i']) :=
  ⟨rfl, rfl, rfl, rfl⟩

/-- C4 (amended): for every data record whose parsed payload has no
truthy `run_id` field and a truthy `error` field — including payloads
that also carry a non-empty `choices[0].delta.content` string — the
decoder emits exactly one `error` event (message: the first truthy of
`details`, `error`, else the fixed fallback; `code` from the `code`
field) and never a `delta` event for that record. -/
theorem C4_error_priority_amended (jparse : List Char → Option Json)
    (st : DeltaState) (line c : List Char) (p : Json)
    (h1 : jsTrim line = dataColon ++ c) (h2 : jsTrim c ≠ doneLit)
    (h3 : jparse (jsTrim c) = some p)
    (h4 : jsTruthy (p.get runIdKey) = false)
    (h5 : jsTruthy (p.get errorLit) = true) :
    deltaLineStep jparse st line =
      (⟨st.runId, false⟩,
       [.error st.runId
          (jsOr (p.get detailsKey) (jsOr (p.get errorLit) (.str unknownErrorLit)))
          (p.get codeKey)]) := by
  rw [deltaLineStep_data jparse st line c h1, if_neg h2, h3]
  simp [h4, h5]

theorem C4_error_priority_amended_witness :
    deltaLineStep jparseC4w ⟨.str ['r'], false⟩
        ['d', 'a', 't', 'a', ':', 'p', 'w'] =
      (⟨.str ['r'], false⟩,
       [.error (.str ['r'])
          (jsOr (c4wPayload.get detailsKey)
            (jsOr (c4wPayload.get errorLit) (.str unknownErrorLit)))
          (c4wPayload.get codeKey)]) :=
  C4_error_priority_amended jparseC4w ⟨.str ['r'], false⟩
    ['d', 'a', 't', 'a', ':', 'p', 'w'] ['p', 'w'] c4wPayload
    (by decide) (by decide) rfl rfl rfl

theorem deltaLineStep_data_malformed (jparse : List Char → Option Json)
    (st : DeltaState) (line c : List Char) (h1 : jsTrim line = dataColon ++ c)
    (h2 : jsTrim c ≠ doneLit) (h3 : jparse (jsTrim c) = none) :
    deltaLineStep jparse st line = (st, []) := by
  rw [deltaLineStep_data jparse st line c h1, if_neg h2, h3]

theorem deltaLineStep_data_runid (jparse : List Char → Option Json)
    (st : DeltaState) (line c : List Char) (p v : Json)
    (h1 : jsTrim line = dataColon ++ c) (h2 : jsTrim c ≠ doneLit)
    (h3 : jparse (jsTrim c) = some p) (h4 : p.get runIdKey = some v)
    (h5 : v.truthy = true) :
    deltaLineStep jparse st line = (⟨v, st.isError⟩, []) := by
  rw [deltaLineStep_data jparse st line c h1, if_neg h2, h3]
  simp [h4, jsTruthy, h5]

theorem deltaLineStep_flagged_error (jparse : List Char → Option Json)
    (r : Json) (line c : List Char) (p : Json)
    (h1 : jsTrim line = dataColon ++ c) (h2 : jsTrim c ≠ doneLit)
    (h3 : jparse (jsTrim c) = some p) (h4 : p.get runIdKey = none)
    (h5 : p.get errorLit = none) (h6 : p.get detailsKey = none) :
    deltaLineStep jparse ⟨r, true⟩ line =
      (⟨r, false⟩, [.error r (.str unknownErrorLit) (p.get codeKey)]) := by
  rw [deltaLineStep_data jparse ⟨r, true⟩ line c h1, if_neg h2, h3]
  simp [h4, h5, h6, jsTruthy, jsOr]

/-- C10: the delta-protocol error flag set by an `event: error` line is
not cleared at record boundaries (blank lines, comments) nor by the
following data record when that record is a `run_id` meta record or has
malformed JSON; consequently the first subsequent well-formed data record
is emitted as an `error` event (with the fallback message, since the
payload has no `error` or `details` field of its own) even though it
carries no `error` field and was not preceded by its own `event: error`
line, and the flag is cleared only by that emission. -/
theorem C10_error_flag_persistence :
    (∀ (jparse : List Char → Option Json) (st : DeltaState) (line : List Char),
       jsTrim line = [] → deltaLineStep jparse st line = (st, []))
    ∧ (∀ (jparse : List Char → Option Json) (st : DeltaState) (line : List Char),
       (jsTrim line).head? = some ':' → deltaLineStep jparse st line = (st, []))
    ∧ (∀ (jparse : List Char → Option Json) (st : DeltaState)
       (line c : List Char), jsTrim line = dataColon ++ c →
       jsTrim c ≠ doneLit → jparse (jsTrim c) = none →
       (deltaLineStep jparse st line).1.isError = st.isError)
    ∧ (∀ (jparse : List Char → Option Json) (st : DeltaState)
       (line c : List Char) (p v : Json), jsTrim line = dataColon ++ c →
       jsTrim c ≠ doneLit → jparse (jsTrim c) = some p →
       p.get runIdKey = some v → v.truthy = true →
       (deltaLineStep jparse st line).1.isError = st.isError)
    ∧ (∀ (jparse : List Char → Option Json) (r : Json)
       (l1 y l2 c1 l3 c2 : List Char) (p2 : Json) (s : List Char),
       jsTrim l1 = eventColon ++ y → jsTrim y = errorLit →
       jsTrim l2 = dataColon ++ c1 → jsTrim c1 ≠ doneLit →
       jparse (jsTrim c1) = none →
       jsTrim l3 = dataColon ++ c2 → jsTrim c2 ≠ doneLit →
       jparse (jsTrim c2) = some p2 → p2.get runIdKey = none →
       p2.get errorLit = none → p2.get detailsKey = none →
       deltaContent p2 = some (.str s) → s.isEmpty = false →
       stepLines (deltaM jparse) ⟨r, false⟩ [l1, l2, l3] =
         (⟨r, false⟩, [.error r (.str unknownErrorLit) (p2.get codeKey)]))
    ∧ (∀ (jparse : List Char → Option Json) (r : Json)
       (l1 y l2 c1 l3 c2 : List Char) (p1 v p2 : Json) (s : List Char),
       jsTrim l1 = eventColon ++ y → jsTrim y = errorLit →
       jsTrim l2 = dataColon ++ c1 → jsTrim c1 ≠ doneLit →
       jparse (jsTrim c1) = some p1 → p1.get runIdKey = some v →
       v.truthy = true →
       jsTrim l3 = dataColon ++ c2 → jsTrim c2 ≠ doneLit →
       jparse (jsTrim c2) = some p2 → p2.get runIdKey = none →
       p2.get errorLit = none → p2.get detailsKey = none →
       deltaContent p2 = some (.str s) → s.isEmpty = false →
       stepLines (deltaM jparse) ⟨r, false⟩ [l1, l2, l3] =
         (⟨v, false⟩, [.error v (.str unknownErrorLit) (p2.get codeKey)])) := by
  refine ⟨?_, ?_, ?_, ?_, ?_, ?_⟩
  · exact deltaLineStep_blank
  · exact deltaLineStep_comment
  · intro jparse st line c h1 h2 h3
    rw [deltaLineStep_data_malformed jparse st line c h1 h2 h3]
  · intro jparse st line c p v h1 h2 h3 h4 h5
    rw [deltaLineStep_data_runid jparse st line c p v h1 h2 h3 h4 h5]
  · intro jparse r l1 y l2 c1 l3 c2 p2 s he1 he2 hd1 hd2 hd3 hd4 hd5 hd6 hd7
      hd8 hd9 _ _
    have s1 : (deltaM jparse).step ⟨r, false⟩ l1 = (⟨r, true⟩, []) := by
      show deltaLineStep jparse ⟨r, false⟩ l1 = (⟨r, true⟩, [])
      rw [deltaLineStep_event jparse ⟨r, false⟩ l1 y he1]
      simp [he2]
    have s2 : (deltaM jparse).step ⟨r, true⟩ l2 = (⟨r, true⟩, []) := by
      show deltaLineStep jparse ⟨r, true⟩ l2 = (⟨r, true⟩, [])
      exact deltaLineStep_data_malformed jparse ⟨r, true⟩ l2 c1 hd1 hd2 hd3
    have s3 : (deltaM jparse).step ⟨r, true⟩ l3 =
        (⟨r, false⟩, [.error r (.str unknownErrorLit) (p2.get codeKey)]) := by
      show deltaLineStep jparse ⟨r, true⟩ l3 =
        (⟨r, false⟩, [.error r (.str unknownErrorLit) (p2.get codeKey)])
      exact deltaLineStep_flagged_error jparse r l3 c2 p2 hd4 hd5 hd6 hd7 hd8 hd9
    rw [stepLines_cons, s1]
    rw [stepLines_cons, s2]
    rw [stepLines_cons, s3, stepLines_nil]
    rfl
  · intro jparse r l1 y l2 c1 l3 c2 p1 v p2 s he1 he2 hd1 hd2 hd3 hd4 hd5 hd6
      hd7 hd8 hd9 hd10 hd11 _ _
    have s1 : (deltaM jparse).step ⟨r, false⟩ l1 = (⟨r, true⟩, []) := by
      show deltaLineStep jparse ⟨r, false⟩ l1 = (⟨r, true⟩, [])
      rw [deltaLineStep_event jparse ⟨r, false⟩ l1 y he1]
      simp [he2]
    have s2 : (deltaM jparse).step ⟨r, true⟩ l2 = (⟨v, true⟩, []) := by
      show deltaLineStep jparse ⟨r, true⟩ l2 = (⟨v, true⟩, [])
      exact deltaLineStep_data_runid jparse ⟨r, true⟩ l2 c1 p1 v hd1 hd2 hd3
        hd4 hd5
    have s3 : (deltaM jparse).step ⟨v, true⟩ l3 =
        (⟨v, false⟩, [.error v (.str unknownErrorLit) (p2.get codeKey)]) := by
      show deltaLineStep jparse ⟨v, true⟩ l3 =
        (⟨v, false⟩, [.error v (.str unknownErrorLit) (p2.get codeKey)])
      exact deltaLineStep_flagged_error jparse v l3 c2 p2 hd6 hd7 hd8 hd9
        hd10 hd11
    rw [stepLines_cons, s1]
    rw [stepLines_cons, s2]
    rw [stepLines_cons, s3, stepLines_nil]
    rfl

theorem C10_error_flag_persistence_witness :
    stepLines (deltaM jparseC10) ⟨.str ['r'], false⟩
        [['e', 'v', 'e', 'n', 't', ':', ' ', 'e', 'r', 'r', 'o', 'r'],
         ['d', 'a', 't', 'a', ':', ' ', 'o', 'o', 'p', 's'],
         ['d', 'a', 't', 'a', ':', ' ', 'w', 'f']] =
      (⟨.str ['r'], false⟩,
       [.error (.str ['r']) (.str unknownErrorLit) (c10Payload.get codeKey)]) :=
  (C10_error_flag_persistence.2.2.2.2.1) jparseC10 (.str ['r'])
    ['e', 'v', 'e', 'n', 't', ':', ' ', 'e', 'r', 'r', 'o', 'r']
    [' ', 'e', 'r', 'r', 'o', 'r']
    ['d', 'a', 't', 'a', ':', ' ', 'o', 'o', 'p', 's'] [' ', 'o', 'o', 'p', 's']
    ['d', 'a', 't', 'a', ':', ' ', 'w', 'f'] [' ', 'w', 'f'] c10Payload
    ['h', 'i']
    (by decide) (by decide) (by decide) (by decide) rfl
    (by decide) (by decide) rfl rfl rfl rfl rfl rfl

theorem emitYields_no_release {ε ρ : Type} (evs : List ε) :
    ∀ budget : Option Nat, releaseCount (emitYields (ρ := ρ) budget evs).1 = 0 := by
  induction evs with
  | nil =>
    intro budget
    match budget with
    | none => rfl
    | some 0 => rfl
    | some (n + 1) => rfl
  | cons e es ih =>
    intro budget
    match budget with
    | none =>
      simp only [emitYields, List.cons]
      unfold releaseCount at ih ⊢
      simp [List.countP_cons, isRelease, ih none]
    | some 0 => rfl
    | some (n + 1) =>
      simp only [emitYields, List.cons]
      unfold releaseCount at ih ⊢
      simp [List.countP_cons, isRelease, ih (some n)]

theorem consumeLoop_release {σ ε ρ : Type} (M : LineMachine σ ε)
    (fin : PipeState σ → Option Nat → List ε → List (StreamAction ε ρ))
    (hfin : ∀ p budget seen, releaseCount (fin p budget seen) = 1) :
    ∀ (reads : List ReadStep) (p : PipeState σ) (budget : Option Nat)
      (seen : List ε),
      releaseCount (consumeLoop M fin p budget seen reads) = 1 := by
  intro reads
  induction reads with
  | nil => intro p budget seen; exact hfin p budget seen
  | cons step rest ih =>
    intro p budget seen
    cases step with
    | readError => rfl
    | chunk c =>
      simp only [consumeLoop]
      split
      · unfold releaseCount
        rw [List.countP_append]
        have h0 := emitYields_no_release (ρ := ρ)
          (chunkStep M p c).2 budget
        unfold releaseCount at h0
        rw [h0]
        rfl
      · unfold releaseCount
        rw [List.countP_append]
        have h0 := emitYields_no_release (ρ := ρ)
          (chunkStep M p c).2 budget
        unfold releaseCount at h0
        rw [h0]
        have h1 := ih (chunkStep M p c).1
          (emitYields (ρ := ρ) budget (chunkStep M p c).2).2.1
          (seen ++ (chunkStep M p c).2)
        unfold releaseCount at h1
        rw [h1]

theorem finDelta_release : ∀ (p : PipeState DeltaState) (budget : Option Nat)
    (seen : List DeltaEvent), releaseCount (finDelta p budget seen) = 1 := by
  intro p budget seen
  rfl

theorem finRich_release (jparse : List Char → Option Json) :
    ∀ (p : PipeState SSEMessage) (budget : Option Nat) (seen : List Json),
    releaseCount (finRich jparse p budget seen) = 1 := by
  intro p budget seen
  unfold finRich releaseCount
  have h0 := emitYields_no_release (ρ := Run)
    (sseFinishBuf jparse p.st p.buf) budget
  unfold releaseCount at h0
  split
  · rw [List.countP_append, h0]
    rfl
  · rw [List.countP_append, List.countP_append, h0]
    split
    · rfl
    · rfl

/-- C7: unconditional resource release: for every consumption of either
protocol stream — drained to completion, ended empty, terminated by a
read error, or abandoned by the consumer after any number of events —
the trace contains exactly one release of the underlying reader, because
every exit path runs the `finally` block. -/
theorem C7_release_exactly_once (jparse : List Char → Option Json)
    (header : Option (List Char)) (budget : Option Nat)
    (reads : List ReadStep) :
    releaseCount (consumeDelta jparse header budget reads) = 1
    ∧ releaseCount (consumeRich jparse budget reads) = 1 :=
  ⟨consumeLoop_release (deltaM jparse) finDelta finDelta_release reads
     (initPipe ⟨initRunId header, false⟩) budget [],
   consumeLoop_release (sseM jparse) (finRich jparse)
     (finRich_release jparse) reads (initPipe emptyMsg) budget []⟩
